import Mathlib

/-!
Shallow embedding of the `couch-revision-purge` Go repository.

Network layer (package `network`): `Hosts`, `inc`, `ScanNetwork`.
An IPv4 address is modelled as its list of four bytes (each `< 256`),
matching Go's 4-byte `net.IP` form used inside `Hosts`.
-/

namespace CouchPurge

/-- Embeds Go `inc` (network package): byte-wise increment with carry,
working from the last (lowest-order) byte.  This helper works on the
reversed byte list so that recursion proceeds from the low byte. -/
def incRev : List Nat → List Nat
  | [] => []
  | b :: rest =>
    let b1 := (b + 1) % 256
    if b1 > 0 then b1 :: rest else b1 :: incRev rest

/-- Embeds Go `inc`: increments the IP's lowest-order byte with carry,
each byte wrapping modulo 256. -/
def inc (ip : List Nat) : List Nat := (incRev ip.reverse).reverse

/-- One byte of a CIDR mask with `k` (`0 ≤ k ≤ 8`) leading one bits,
as produced by Go's `net.CIDRMask`. -/
def maskByte (k : Nat) : Nat := 256 - 2 ^ (8 - k)

/-- Embeds Go `net.CIDRMask p 32`: the four mask bytes for prefix `p`. -/
def cidrMask (p : Nat) : List Nat :=
  [maskByte (min 8 p), maskByte (min 8 (p - 8)),
   maskByte (min 8 (p - 16)), maskByte (min 8 (p - 24))]

/-- Embeds Go `IP.Mask`: byte-wise AND of an address with a mask. -/
def maskIP (x m : List Nat) : List Nat := List.zipWith Nat.land x m

/-- Embeds Go `IPNet.Contains`: the candidate, masked, equals the
(already masked) network number. -/
def contains (network m x : List Nat) : Bool := maskIP x m == network

/-- The collection loop of Go `Hosts`:
`for ip := ip.Mask(ipnet.Mask); ipnet.Contains(ip); inc(ip) { ips = append(ips, ip) }`.
`fuel` bounds the number of iterations we are willing to unfold; `none`
means the loop had not exited within `fuel` iterations. -/
def hostsLoop (network m : List Nat) : Nat → List Nat → Option (List (List Nat))
  | 0, _ => none
  | fuel + 1, ip =>
    if contains network m ip then
      (hostsLoop network m fuel (inc ip)).map (ip :: ·)
    else
      some []

/-- Result of running Go `Hosts`: the loop may fail to exit (`diverged`),
the final slice expression may violate Go's slice bounds (`panicked`),
or a host list is returned. -/
inductive HostsResult where
  | diverged : HostsResult
  | panicked : HostsResult
  | ok (hosts : List (List Nat)) : HostsResult
deriving DecidableEq

/-- Go slice expression `l[lo:hi]`: defined only when `lo ≤ hi ≤ len l`,
otherwise the program panics (modelled as `none`). -/
def goSlice (l : List (List Nat)) (lo hi : Nat) : Option (List (List Nat)) :=
  if lo ≤ hi ∧ hi ≤ l.length then some ((l.drop lo).take (hi - lo)) else none

/-- Outcome of the final Go expression `ips[1 : len(ips)-1]`: a slice
bounds violation is a runtime panic. -/
def sliceResult : Option (List (List Nat)) → HostsResult
  | none => .panicked
  | some l => .ok l

/-- Combines the loop outcome with the final slice of Go `Hosts`. -/
def hostsFinish : Option (List (List Nat)) → HostsResult
  | none => .diverged
  | some ips => sliceResult (goSlice ips 1 (ips.length - 1))

/-- Embeds Go `Hosts` on an already-parsed CIDR block: `ipb` is the
four-byte address written before the slash and `p` the prefix length.
Runs the collection loop from the masked network address, then returns
`ips[1 : len(ips)-1]`. -/
def Hosts (ipb : List Nat) (p : Nat) (fuel : Nat) : HostsResult :=
  let m := cidrMask p
  let network := maskIP ipb m
  hostsFinish (hostsLoop network m fuel network)

/-- Big-endian value of a byte list (base 256). -/
def toVal : List Nat → Nat := List.foldl (fun a b => a * 256 + b) 0

/-- The four bytes of a 32-bit value, big-endian. -/
def toBytes (v : Nat) : List Nat :=
  [v / 2 ^ 24 % 256, v / 2 ^ 16 % 256, v / 2 ^ 8 % 256, v % 256]

/-- `Hosts` never produces a host list, whatever iteration budget it is
given: the Go collection loop never exits. -/
def HostsDiverges (ipb : List Nat) (p : Nat) : Prop :=
  ∀ fuel, Hosts ipb p fuel = .diverged

/-- A list of bytes: every entry is below 256. -/
def ValidBytes (l : List Nat) : Prop := ∀ x ∈ l, x < 256

/-- Little-endian value of a byte list, used to reason about `incRev`. -/
def valLE : List Nat → Nat
  | [] => 0
  | b :: rest => b + 256 * valLE rest

/-! ### `ScanNetwork` (network package) -/

/-- Go `ip.String()` for a 4-byte address: dotted-quad rendering. -/
def ipStr (ip : List Nat) : String := String.intercalate "." (ip.map toString)

/-- Embeds Go `ScanNetwork`.  Each host from `Hosts` gets one goroutine
that calls the reachability oracle `isCouchDBRunning ip port` and, when it
returns true, appends `ip` to the shared slice under the mutex.  The
nondeterministic interleaving is modelled by `sched`: the order (by index
into the host list) in which the goroutines reach their append.  A CIDR
parse failure aborts the scan before probing (`logger.Fatalf`), modelled
as `none`; so are the loop divergence / slice panic of `Hosts`, which in
Go also prevent any result from being returned. -/
def ScanNetwork (ipb : List Nat) (p fuel : Nat) (port : String)
    (isCouchDBRunning : String → String → Bool) (sched : List Nat) :
    Option (List String) :=
  match Hosts ipb p fuel with
  | .ok ips =>
    let strs := ips.map ipStr
    some ((sched.filterMap (fun i => strs.get? i)).filter
      (fun ip => isCouchDBRunning ip port))
  | _ => none

/-! ### CouchDB client (couchdb package) -/

/-- An HTTP response as the client code observes it: status code plus the
raw body text (the code always reads the full body first). -/
structure HttpResp where
  status : Nat
  body : String
deriving DecidableEq

/-- JSON values as decoded by `encoding/json` into `interface{}`. -/
inductive Json where
  | null : Json
  | bool (b : Bool) : Json
  | num (n : Int) : Json
  | str (s : String) : Json
  | arr (xs : List Json) : Json
  | obj (fields : List (String × Json)) : Json

/-- The external world of one `CouchDBClient`: the HTTP transport (one
field per request shape the code issues, errors standing for Go transport
errors) and the `encoding/json` codec (external library collaborators). -/
structure Env where
  getDoc : String → Except String HttpResp
  getRevs : String → Except String HttpResp
  delRev : String → String → Except String HttpResp
  delDoc : String → Except String HttpResp
  putDoc : String → String → Except String HttpResp
  putDesign : String → String → Except String HttpResp
  decodeDoc : String → Except String (List (String × Json))
  decodeRevs : String → Except String (List String)
  encode : List (String × Json) → String

/-- Embeds `GetDocument`: GET the document, fail on transport error, fail
with the wrapped body on a non-200 status, otherwise unmarshal. -/
def GetDocument (env : Env) (docID : String) :
    Except String (List (String × Json)) :=
  match env.getDoc docID with
  | .error e => .error e
  | .ok r =>
    if r.status = 200 then env.decodeDoc r.body
    else .error ("failed to fetch document: " ++ r.body)

/-- Embeds `GetAllRevisions`: GET with `revs_info=true`, same error
discipline as `GetDocument`, then unmarshal the revision list. -/
def GetAllRevisions (env : Env) (docID : String) : Except String (List String) :=
  match env.getRevs docID with
  | .error e => .error e
  | .ok r =>
    if r.status = 200 then env.decodeRevs r.body
    else .error ("failed to fetch document revisions: " ++ r.body)

/-- Embeds `DeleteDocumentRevision`: DELETE with `rev=` query parameter;
any non-200 status becomes an error carrying the response body. -/
def DeleteDocumentRevision (env : Env) (docID rev : String) :
    Except String String :=
  match env.delRev docID rev with
  | .error e => .error e
  | .ok r =>
    if r.status = 200 then .ok "Revision deleted successfully"
    else .error ("failed to delete document revision: " ++ r.body)

/-- `strings.Contains` on character lists: does `sub` occur inside the
second list? -/
def subChars (sub : List Char) : List Char → Bool
  | [] => sub.isEmpty
  | c :: rest => sub.isPrefixOf (c :: rest) || subChars sub rest

/-- Embeds Go `strings.Contains s sub`. -/
def strContains (s sub : String) : Bool := subChars sub.data s.data

/-- Embeds `DeleteAllRevisions`: delete each revision in order; an error
whose text mentions `not_found` is skipped, any other error aborts with
the revision wrapped in. -/
def DeleteAllRevisions (env : Env) (docID : String) :
    List String → Except String Unit
  | [] => .ok ()
  | rev :: rest =>
    match DeleteDocumentRevision env docID rev with
    | .ok _ => DeleteAllRevisions env docID rest
    | .error e =>
      if strContains e "not_found" then DeleteAllRevisions env docID rest
      else .error ("failed to delete revision " ++ rev ++ ": " ++ e)

/-- Embeds `DeleteDocument`: DELETE by id; only a status that is neither
200 nor 404 is an error. -/
def DeleteDocument (env : Env) (docID : String) : Except String Unit :=
  match env.delDoc docID with
  | .error e => .error e
  | .ok r =>
    if ¬(r.status = 200) ∧ ¬(r.status = 404) then
      .error ("failed to delete document: " ++ r.body)
    else .ok ()

/-- Outcome of a call that can end in a Go runtime panic. -/
inductive COutcome where
  | crash (msg : String) : COutcome
  | err (e : String) : COutcome
  | ok : COutcome

/-- Result of `CreateDocument`: its outcome, the caller's document map
after the call (the code mutates it in place), and the PUT requests that
were actually issued (document id, marshalled body). -/
structure CreateResult where
  outcome : COutcome
  doc : List (String × Json)
  sent : List (String × String)

/-- Go `delete(doc, k)` on the map modelled as an association list. -/
def eraseKey (doc : List (String × Json)) (k : String) : List (String × Json) :=
  doc.filter (fun kv => kv.1 != k)

/-- Embeds `CreateDocument`: evaluates `doc["_id"].(string)` first — a Go
runtime panic when `_id` is absent or not a string — then strips `_rev`
from the caller's map, marshals it and PUTs it, expecting status 201. -/
def CreateDocument (env : Env) (doc : List (String × Json)) : CreateResult :=
  match doc.lookup "_id" with
  | some (Json.str s) =>
    let doc' := eraseKey doc "_rev"
    let body := env.encode doc'
    match env.putDoc s body with
    | .error e => ⟨.err e, doc', [(s, body)]⟩
    | .ok r =>
      if r.status = 201 then ⟨.ok, doc', [(s, body)]⟩
      else ⟨.err ("failed to create document: " ++ r.body), doc', [(s, body)]⟩
  | _ => ⟨.crash "interface conversion", doc, []⟩

/-- Embeds `ResetDocument`, also recording which steps were executed (in
order): fetch the document, fetch its revision history, delete every
revision, delete the document, recreate it.  Each failure is wrapped with
the step's message and stops the workflow. -/
def ResetDocument (env : Env) (docID : String) : COutcome × List String :=
  match GetDocument env docID with
  | .error e => (.err ("failed to fetch document: " ++ e), ["fetch document"])
  | .ok doc =>
    match GetAllRevisions env docID with
    | .error e => (.err ("failed to get revisions: " ++ e),
        ["fetch document", "fetch revision history"])
    | .ok revisions =>
      match DeleteAllRevisions env docID revisions with
      | .error e => (.err ("failed to delete all revisions: " ++ e),
          ["fetch document", "fetch revision history", "delete each revision"])
      | .ok _ =>
        match DeleteDocument env docID with
        | .error e => (.err ("failed to delete document: " ++ e),
            ["fetch document", "fetch revision history", "delete each revision",
             "delete document"])
        | .ok _ =>
          match (CreateDocument env doc).outcome with
          | .crash m => (.crash m,
              ["fetch document", "fetch revision history", "delete each revision",
               "delete document", "recreate"])
          | .err e => (.err ("failed to recreate document: " ++ e),
              ["fetch document", "fetch revision history", "delete each revision",
               "delete document", "recreate"])
          | .ok => (.ok,
              ["fetch document", "fetch revision history", "delete each revision",
               "delete document", "recreate"])

/-- A document value as carried in a query-response row (`Document` in
couchdb.go): id, revision and the recorded deleted-conflict revisions. -/
structure CDoc where
  id : String
  rev : String
  deletedConflicts : List String

/-- One row of a view query response (`QueryResponse.Rows`). -/
structure QRow where
  id : String
  key : String
  value : CDoc

/-- A decoded view query response (`QueryResponse`). -/
structure QResponse where
  totalRows : Int
  offset : Int
  rows : List QRow

/-- The inner loop of `HandleQueryResponse` over one row's
deleted-conflict revisions, recording each revision-delete call issued as
a `(document id, revision)` pair.  The first failure stops the loop and
produces the wrapped error naming the document id. -/
def delConflictsAux (env : Env) (docID : String) :
    List String → Except String Unit × List (String × String)
  | [] => (.ok (), [])
  | r :: rs =>
    match DeleteDocumentRevision env docID r with
    | .error e =>
      (.error ("failed to delete conflict for document " ++ docID ++ ": " ++ e),
       [(docID, r)])
    | .ok _ =>
      let step := delConflictsAux env docID rs
      (step.1, (docID, r) :: step.2)

/-- The row loop of `HandleQueryResponse`: rows whose value carries at
least one deleted-conflict revision get their conflicts deleted; a failure
aborts the remaining rows. -/
def handleRows (env : Env) : List QRow → Except String Unit × List (String × String)
  | [] => (.ok (), [])
  | row :: rest =>
    if row.value.deletedConflicts.length > 0 then
      match delConflictsAux env row.value.id row.value.deletedConflicts with
      | (.error e, calls) => (.error e, calls)
      | (.ok _, calls) =>
        let step := handleRows env rest
        (step.1, calls ++ step.2)
    else handleRows env rest

/-- Embeds `HandleQueryResponse` on an already-unmarshalled query
response, additionally recording every revision-delete call issued. -/
def HandleQueryResponse (env : Env) (resp : QResponse) :
    Except String Unit × List (String × String) :=
  handleRows env resp.rows

/-- Embeds `CreateDesignDocument`: marshal the design document, PUT it,
and return the response body — the status code is never inspected. -/
def CreateDesignDocument (env : Env) (designDocName : String)
    (designDoc : List (String × Json)) : Except String String :=
  match env.putDesign designDocName (env.encode designDoc) with
  | .error e => .error e
  | .ok r => .ok r.body

/-! ### The `high_rev_gen` view installed by `main` -/

/-- A document as the view's map function sees it: its id and current
revision id. -/
structure ViewDoc where
  id : String
  rev : String
deriving DecidableEq

/-- A value emitted by the view: either a whole document (`emit(_, doc)`)
or a bare number. -/
inductive EmitVal where
  | docVal (d : ViewDoc) : EmitVal
  | numVal (n : Nat) : EmitVal
deriving DecidableEq

/-- JS `rev.split("-")[0]`: the characters of `rev` before the first
`-` (the whole string when there is no `-`). -/
def genSegment (rev : String) : List Char :=
  rev.data.takeWhile (fun c => c != '-')

/-- Numeric value of a digit list. -/
def digitsVal (ds : List Char) : Nat :=
  ds.foldl (fun a c => a * 10 + (c.toNat - 48)) 0

/-- JS `parseInt` as applied to a revision-id segment: the value of the
leading decimal digits, or `none` (NaN) when there is none. -/
def parseIntJS (cs : List Char) : Option Nat :=
  if (cs.takeWhile Char.isDigit).isEmpty then none
  else some (digitsVal (cs.takeWhile Char.isDigit))

/-- Embeds the map function of the `high_rev_gen` view installed by
`main` (main.go): take the generation prefix of `doc._rev` before the
first `-`, parse it, and when it strictly exceeds 100000 emit the pair
`(doc._id, doc)` — the key is the document id and the value the whole
document. -/
def viewMap (d : ViewDoc) : List (String × EmitVal) :=
  match parseIntJS (genSegment d.rev) with
  | some revGen => if revGen > 100000 then [(d.id, .docVal d)] else []
  | none => []

/-- Concrete transport for the C4 witness: revision `1-a` deletes cleanly,
`2-b` answers 404 with a `not_found` body, `3-c` answers 500, and the
document DELETE answers 404. -/
def env4 : Env :=
  ⟨fun _ => .error "unused", fun _ => .error "unused",
   fun _ rev =>
     if rev = "1-a" then .ok ⟨200, ""⟩
     else if rev = "2-b" then .ok ⟨404, "not_found: missing"⟩
     else .ok ⟨500, "boom"⟩,
   fun _ => .ok ⟨404, "not_found"⟩,
   fun _ _ => .error "unused", fun _ _ => .error "unused",
   fun _ => .error "unused", fun _ => .error "unused", fun _ => "unused"⟩

/-- Concrete transport for the C5 witness: every revision DELETE succeeds
with status 200. -/
def env5 : Env :=
  ⟨fun _ => .error "unused", fun _ => .error "unused",
   fun _ _ => .ok ⟨200, ""⟩,
   fun _ => .error "unused",
   fun _ _ => .error "unused", fun _ _ => .error "unused",
   fun _ => .error "unused", fun _ => .error "unused", fun _ => "unused"⟩

/-- Concrete transport for the reset/create/design witnesses: every step
succeeds; the design-document PUT is rejected with status 500. -/
def envR : Env :=
  ⟨fun _ => .ok ⟨200, "docbody"⟩,
   fun _ => .ok ⟨200, "revsbody"⟩,
   fun _ _ => .ok ⟨200, ""⟩,
   fun _ => .ok ⟨200, ""⟩,
   fun _ _ => .ok ⟨201, ""⟩,
   fun _ _ => .ok ⟨500, "rejected"⟩,
   fun _ => .ok [("_id", Json.str "doc1")],
   fun _ => .ok ["1-a"],
   fun _ => "marshalled"⟩

/-- A concrete document body carrying `_id`, `_rev` and a payload field,
used by the create/strip witnesses. -/
def doc0 : List (String × Json) :=
  [("_id", Json.str "doc1"), ("_rev", Json.str "5-x"), ("v", Json.num 1)]


/-! ### Arithmetic facts about bytes, masks and the increment loop -/


set_option maxRecDepth 8192 in
lemma land_maskByte_fin :
    ∀ x : Fin 256, ∀ k : Fin 9,
      Nat.land x.val (maskByte k.val) = x.val - x.val % 2 ^ (8 - k.val) := by
  decide

/-- Byte-wise AND with a CIDR mask byte of `k` leading ones clears the
low `8 - k` bits. -/
lemma land_maskByte (x k : Nat) (hx : x < 256) (hk : k ≤ 8) :
    Nat.land x (maskByte k) = x - x % 2 ^ (8 - k) :=
  land_maskByte_fin ⟨x, hx⟩ ⟨k, by omega⟩


lemma valLE_lt (l : List Nat) (h : ValidBytes l) : valLE l < 256 ^ l.length := by
  induction l with
  | nil => simp [valLE]
  | cons b rest ih =>
    have hb : b < 256 := h b (by simp)
    have hr := ih (fun x hx => h x (by simp [hx]))
    simp only [valLE, List.length_cons, pow_succ]
    calc b + 256 * valLE rest < 256 + 256 * valLE rest := by omega
      _ ≤ 256 * (valLE rest + 1) := by ring_nf; omega
      _ ≤ 256 * 256 ^ rest.length := by
          have : valLE rest + 1 ≤ 256 ^ rest.length := hr
          exact Nat.mul_le_mul_left _ this
      _ = 256 ^ rest.length * 256 := by ring

lemma incRev_length (l : List Nat) : (incRev l).length = l.length := by
  induction l with
  | nil => rfl
  | cons b rest ih =>
    simp only [incRev]
    split <;> simp [ih]

lemma incRev_valid (l : List Nat) (h : ValidBytes l) : ValidBytes (incRev l) := by
  induction l with
  | nil => exact h
  | cons b rest ih =>
    intro x hx
    simp only [incRev] at hx
    split at hx
    · rcases List.mem_cons.mp hx with h1 | h2
      · omega
      · exact h x (by simp [h2])
    · rcases List.mem_cons.mp hx with h1 | h2
      · omega
      · exact ih (fun y hy => h y (by simp [hy])) x h2

lemma incRev_valLE (l : List Nat) (h : ValidBytes l) :
    valLE (incRev l) = (valLE l + 1) % 256 ^ l.length := by
  induction l with
  | nil => simp [incRev, valLE]
  | cons b rest ih =>
    have hb : b < 256 := h b (by simp)
    have hrest : ValidBytes rest := fun x hx => h x (by simp [hx])
    simp only [incRev]
    by_cases hcase : (b + 1) % 256 > 0
    · rw [if_pos hcase]
      have hb1 : b + 1 < 256 := by
        by_contra hge
        have : b = 255 := by omega
        subst this
        simp at hcase
      have hmod : (b + 1) % 256 = b + 1 := Nat.mod_eq_of_lt hb1
      simp only [valLE, hmod, List.length_cons]
      have hlt : b + 256 * valLE rest + 1 < 256 ^ (rest.length + 1) := by
        have := valLE_lt rest hrest
        have h256 : 256 ^ (rest.length + 1) = 256 * 256 ^ rest.length := by ring
        omega
      rw [Nat.mod_eq_of_lt hlt]
      omega
    · rw [if_neg hcase]
      have hb255 : b = 255 := by
        rcases Nat.lt_or_ge (b + 1) 256 with hlt | hge
        · rw [Nat.mod_eq_of_lt hlt] at hcase; omega
        · omega
      subst hb255
      simp only [valLE, ih hrest, List.length_cons]
      have : (255 : Nat) + 1 = 256 := by norm_num
      rw [show (255 : Nat) + 256 * valLE rest + 1 = 256 * (valLE rest + 1) by ring]
      rw [show (256 : Nat) ^ (rest.length + 1) = 256 * 256 ^ rest.length by ring]
      rw [Nat.mul_mod_mul_left]
      simp [valLE]

lemma toVal_acc (l : List Nat) :
    ∀ acc, List.foldl (fun a b => a * 256 + b) acc l =
      acc * 256 ^ l.length + List.foldl (fun a b => a * 256 + b) 0 l := by
  induction l with
  | nil => intro acc; simp
  | cons b rest ih =>
    intro acc
    simp only [List.foldl_cons, List.length_cons]
    rw [ih (acc * 256 + b), ih (0 * 256 + b)]
    ring

lemma valLE_append_singleton (xs : List Nat) (b : Nat) :
    valLE (xs ++ [b]) = valLE xs + b * 256 ^ xs.length := by
  induction xs with
  | nil => simp [valLE]
  | cons a xs ih =>
    simp only [List.cons_append, valLE, List.length_cons]
    rw [show xs.append [b] = xs ++ [b] from rfl, ih]
    ring

lemma toVal_eq_valLE (l : List Nat) : toVal l = valLE l.reverse := by
  induction l with
  | nil => rfl
  | cons b rest ih =>
    show List.foldl (fun a b => a * 256 + b) 0 (b :: rest) = _
    simp only [List.foldl_cons, List.reverse_cons]
    rw [toVal_acc rest (0 * 256 + b), valLE_append_singleton]
    simp only [List.length_reverse]
    rw [← ih]
    simp only [toVal]
    ring

lemma toVal_lt (l : List Nat) (h : ValidBytes l) : toVal l < 256 ^ l.length := by
  rw [toVal_eq_valLE]
  have hrev : ValidBytes l.reverse := fun x hx => h x (List.mem_reverse.mp hx)
  have := valLE_lt l.reverse hrev
  simpa using this

lemma inc_length (l : List Nat) : (inc l).length = l.length := by
  simp [inc, incRev_length]

lemma inc_valid (l : List Nat) (h : ValidBytes l) : ValidBytes (inc l) := by
  intro x hx
  simp only [inc, List.mem_reverse] at hx
  exact incRev_valid l.reverse (fun y hy => h y (List.mem_reverse.mp hy)) x hx

lemma inc_toVal (l : List Nat) (h : ValidBytes l) :
    toVal (inc l) = (toVal l + 1) % 256 ^ l.length := by
  have hrev : ValidBytes l.reverse := fun x hx => h x (List.mem_reverse.mp hx)
  rw [toVal_eq_valLE, inc, List.reverse_reverse,
    incRev_valLE l.reverse hrev, toVal_eq_valLE]
  simp

lemma toVal_toBytes (v : Nat) (hv : v < 2 ^ 32) : toVal (toBytes v) = v := by
  simp only [toBytes, toVal, List.foldl_cons, List.foldl_nil]
  omega

lemma toBytes_valid (v : Nat) : ValidBytes (toBytes v) := by
  intro x hx
  simp only [toBytes, List.mem_cons, List.not_mem_nil, or_false] at hx
  rcases hx with h | h | h | h <;> subst h <;> omega

lemma toBytes_length (v : Nat) : (toBytes v).length = 4 := rfl

lemma toBytes_mod (v : Nat) : toBytes v = toBytes (v % 2 ^ 32) := by
  simp only [toBytes, List.cons.injEq, and_true]
  refine ⟨?_, ?_, ?_, ?_⟩ <;> omega

lemma exists_four (l : List Nat) (h : l.length = 4) :
    ∃ a b c d, l = [a, b, c, d] := by
  rcases l with _ | ⟨a, _ | ⟨b, _ | ⟨c, _ | ⟨d, _ | ⟨e, t⟩⟩⟩⟩⟩ <;>
    simp_all

lemma bytes_ext (l₁ l₂ : List Nat) (h₁ : l₁.length = 4) (h₂ : l₂.length = 4)
    (hv₁ : ValidBytes l₁) (hv₂ : ValidBytes l₂) (hval : toVal l₁ = toVal l₂) :
    l₁ = l₂ := by
  obtain ⟨a, b, c, d, rfl⟩ := exists_four l₁ h₁
  obtain ⟨a', b', c', d', rfl⟩ := exists_four l₂ h₂
  have ha : a < 256 := hv₁ a (by simp)
  have hb : b < 256 := hv₁ b (by simp)
  have hc : c < 256 := hv₁ c (by simp)
  have hd : d < 256 := hv₁ d (by simp)
  have ha' : a' < 256 := hv₂ a' (by simp)
  have hb' : b' < 256 := hv₂ b' (by simp)
  have hc' : c' < 256 := hv₂ c' (by simp)
  have hd' : d' < 256 := hv₂ d' (by simp)
  simp only [toVal, List.foldl_cons, List.foldl_nil] at hval
  have h4 : a = a' ∧ b = b' ∧ c = c' ∧ d = d' := by omega
  rw [h4.1, h4.2.1, h4.2.2.1, h4.2.2.2]

lemma maskIP_eq (a b c d p : Nat) (ha : a < 256) (hb : b < 256)
    (hc : c < 256) (hd : d < 256) :
    maskIP [a, b, c, d] (cidrMask p) =
      [a - a % 2 ^ (8 - min 8 p), b - b % 2 ^ (8 - min 8 (p - 8)),
       c - c % 2 ^ (8 - min 8 (p - 16)), d - d % 2 ^ (8 - min 8 (p - 24))] := by
  simp only [maskIP, cidrMask, List.zipWith]
  rw [land_maskByte a _ ha (by omega), land_maskByte b _ hb (by omega),
    land_maskByte c _ hc (by omega), land_maskByte d _ hd (by omega)]

lemma maskIP_cidr_valid (a b c d p : Nat) (ha : a < 256) (hb : b < 256)
    (hc : c < 256) (hd : d < 256) :
    ValidBytes (maskIP [a, b, c, d] (cidrMask p)) ∧
      (maskIP [a, b, c, d] (cidrMask p)).length = 4 := by
  rw [maskIP_eq a b c d p ha hb hc hd]
  constructor
  · intro x hx
    simp only [List.mem_cons, List.not_mem_nil, or_false] at hx
    rcases hx with h | h | h | h <;> subst h <;> omega
  · rfl

lemma maskIP_toVal (a b c d p : Nat) (ha : a < 256) (hb : b < 256)
    (hc : c < 256) (hd : d < 256) (hp : p ≤ 32) :
    toVal (maskIP [a, b, c, d] (cidrMask p)) =
      toVal [a, b, c, d] - toVal [a, b, c, d] % 2 ^ (32 - p) := by
  rw [maskIP_eq a b c d p ha hb hc hd]
  simp only [toVal, List.foldl_cons, List.foldl_nil]
  interval_cases p <;> norm_num <;> omega

lemma sub_mod_eq_mul_div (V W : Nat) : V - V % W = W * (V / W) := by
  have := Nat.div_add_mod V W
  omega

lemma aligned_window (W u netv : Nat) (hW : 0 < W) (ha : W ∣ netv) :
    u - u % W = netv ↔ netv ≤ u ∧ u < netv + W := by
  obtain ⟨q, rfl⟩ := ha
  rw [sub_mod_eq_mul_div u W]
  constructor
  · intro h
    have hq : u / W = q := Nat.eq_of_mul_eq_mul_left hW h
    have h1 : W * (u / W) ≤ u := by have := Nat.div_add_mod u W; omega
    have h2 : u < W * (u / W) + W := by
      have := Nat.div_add_mod u W
      have := Nat.mod_lt u hW
      omega
    rw [hq] at h1 h2
    exact ⟨h1, h2⟩
  · rintro ⟨h1, h2⟩
    have hc1 : q * W = W * q := Nat.mul_comm q W
    have hc2 : (q + 1) * W = W * q + W := by ring
    have hge : q ≤ u / W := (Nat.le_div_iff_mul_le hW).mpr (by omega)
    have hlt : u / W < q + 1 := (Nat.div_lt_iff_lt_mul hW).mpr (by omega)
    have : u / W = q := by omega
    rw [this]

lemma contains_char (a b c d p u : Nat) (ha : a < 256) (hb : b < 256)
    (hc : c < 256) (hd : d < 256) (hp : p ≤ 32) (hu : u < 2 ^ 32) :
    (contains (maskIP [a, b, c, d] (cidrMask p)) (cidrMask p) (toBytes u) = true ↔
      (toVal [a, b, c, d] - toVal [a, b, c, d] % 2 ^ (32 - p) ≤ u ∧
       u < toVal [a, b, c, d] - toVal [a, b, c, d] % 2 ^ (32 - p) + 2 ^ (32 - p))) := by
  obtain ⟨x, y, z, t, hxyzt⟩ := exists_four (toBytes u) (toBytes_length u)
  have hvalid := toBytes_valid u
  rw [hxyzt] at hvalid
  have hx : x < 256 := hvalid x (by simp)
  have hy : y < 256 := hvalid y (by simp)
  have hz : z < 256 := hvalid z (by simp)
  have ht : t < 256 := hvalid t (by simp)
  have hvalu : toVal [x, y, z, t] = u := by rw [← hxyzt, toVal_toBytes u hu]
  have hW : 0 < 2 ^ (32 - p) := Nat.pos_pow_of_pos _ (by norm_num)
  have hdvd : 2 ^ (32 - p) ∣ toVal [a, b, c, d] - toVal [a, b, c, d] % 2 ^ (32 - p) := by
    rw [sub_mod_eq_mul_div]
    exact Dvd.intro _ rfl
  unfold contains
  rw [hxyzt, beq_iff_eq]
  constructor
  · intro heq
    have hv : toVal (maskIP [x, y, z, t] (cidrMask p)) =
        toVal (maskIP [a, b, c, d] (cidrMask p)) := by rw [heq]
    rw [maskIP_toVal x y z t p hx hy hz ht hp,
      maskIP_toVal a b c d p ha hb hc hd hp, hvalu] at hv
    exact (aligned_window _ u _ hW hdvd).mp hv
  · intro hwin
    have hv : u - u % 2 ^ (32 - p) =
        toVal [a, b, c, d] - toVal [a, b, c, d] % 2 ^ (32 - p) :=
      (aligned_window _ u _ hW hdvd).mpr hwin
    have g1 := maskIP_cidr_valid x y z t p hx hy hz ht
    have g2 := maskIP_cidr_valid a b c d p ha hb hc hd
    apply bytes_ext _ _ g1.2 g2.2 g1.1 g2.1
    rw [maskIP_toVal x y z t p hx hy hz ht hp,
      maskIP_toVal a b c d p ha hb hc hd hp, hvalu, hv]

lemma range_map_toBytes (u r : Nat) :
    (List.range (r + 1)).map (fun t => toBytes (u + t)) =
      toBytes u :: (List.range r).map (fun t => toBytes (u + 1 + t)) := by
  rw [List.range_succ_eq_map, List.map_cons, List.map_map]
  simp only [Nat.add_zero]
  congr 1
  apply List.map_congr_left
  intro t _
  simp only [Function.comp_apply]
  congr 1
  omega

lemma hostsLoop_run (network : List Nat) (p netv : Nat)
    (hp1 : 1 ≤ p) (hp2 : p ≤ 32)
    (hchar : ∀ u, u < 2 ^ 32 →
      (contains network (cidrMask p) (toBytes u) = true ↔
        (netv ≤ u ∧ u < netv + 2 ^ (32 - p))))
    (hbound : netv + 2 ^ (32 - p) ≤ 2 ^ 32) :
    ∀ r fuel, r ≤ 2 ^ (32 - p) → r + 1 ≤ fuel →
      hostsLoop network (cidrMask p) fuel (toBytes (netv + (2 ^ (32 - p) - r))) =
        some ((List.range r).map (fun t => toBytes (netv + (2 ^ (32 - p) - r) + t))) := by
  have hWle : 2 ^ (32 - p) ≤ 2 ^ 31 := Nat.pow_le_pow_right (by norm_num) (by omega)
  intro r
  induction r with
  | zero =>
    intro fuel _ hfuel
    obtain ⟨f, rfl⟩ : ∃ f, fuel = f + 1 := ⟨fuel - 1, by omega⟩
    simp only [Nat.sub_zero, List.range_zero, List.map_nil]
    have hfalse : contains network (cidrMask p) (toBytes (netv + 2 ^ (32 - p))) = false := by
      rcases Nat.lt_or_ge (netv + 2 ^ (32 - p)) (2 ^ 32) with hlt | hge
      · have := hchar (netv + 2 ^ (32 - p)) hlt
        rw [Bool.eq_false_iff]
        intro hcontra
        have := this.mp hcontra
        omega
      · have heq : netv + 2 ^ (32 - p) = 2 ^ 32 := by omega
        have hzero : toBytes (netv + 2 ^ (32 - p)) = toBytes 0 := by
          rw [toBytes_mod, heq]
          norm_num
        rw [hzero]
        have := hchar 0 (by norm_num)
        rw [Bool.eq_false_iff]
        intro hcontra
        have hwin := this.mp hcontra
        have hnetpos : 0 < netv := by omega
        omega
    simp [hostsLoop, hfalse]
  | succ r ih =>
    intro fuel hr hfuel
    obtain ⟨f, rfl⟩ : ∃ f, fuel = f + 1 := ⟨fuel - 1, by omega⟩
    set u := netv + (2 ^ (32 - p) - (r + 1)) with hu
    have hult : u < 2 ^ 32 := by omega
    have htrue : contains network (cidrMask p) (toBytes u) = true :=
      (hchar u hult).mpr (by omega)
    have hinc : inc (toBytes u) = toBytes (u + 1) := by
      have hlen : (inc (toBytes u)).length = 4 := by
        rw [inc_length, toBytes_length]
      apply bytes_ext _ _ hlen (toBytes_length _)
        (inc_valid _ (toBytes_valid u)) (toBytes_valid _)
      rw [inc_toVal _ (toBytes_valid u), toBytes_length,
        toVal_toBytes u hult,
        show (256 : Nat) ^ 4 = 2 ^ 32 by norm_num]
      rcases Nat.lt_or_ge (u + 1) (2 ^ 32) with h1 | h1
      · rw [Nat.mod_eq_of_lt h1, toVal_toBytes _ h1]
      · have : u + 1 = 2 ^ 32 := by omega
        rw [this]
        simp [toBytes, toVal]
    have hnext : u + 1 = netv + (2 ^ (32 - p) - r) := by omega
    have hrec := ih f (by omega) (by omega)
    rw [range_map_toBytes u r]
    simp only [hostsLoop, htrue, if_true, hinc, hnext, hrec, Option.map_some']

lemma goSlice_range_map (n : Nat) (f : Nat → List Nat) (h2 : 2 ≤ n) :
    goSlice ((List.range n).map f) 1 (((List.range n).map f).length - 1) =
      some ((List.range (n - 2)).map (fun j => f (j + 1))) := by
  simp only [goSlice, List.length_map, List.length_range]
  rw [if_pos (by omega)]
  congr 1
  apply List.ext_getElem
  · simp
    omega
  · intro i h1 h2
    simp only [List.getElem_take, List.getElem_drop, List.getElem_map,
      List.getElem_range]
    congr 1
    omega

lemma land_id_zero (x : Nat) : Nat.land x 0 = 0 := by
  simp [Nat.land]

/-- With the all-zero mask of prefix length 0, every four-byte address is
contained in the network. -/
lemma contains_zero_mask (x : List Nat) (h : x.length = 4) :
    contains [0, 0, 0, 0] [0, 0, 0, 0] x = true := by
  obtain ⟨a, b, c, d, rfl⟩ := exists_four x h
  simp [contains, maskIP, List.zipWith, land_id_zero]

lemma hostsLoop_zero_mask (fuel : Nat) :
    ∀ x : List Nat, x.length = 4 →
      hostsLoop [0, 0, 0, 0] [0, 0, 0, 0] fuel x = none := by
  induction fuel with
  | zero => intro x _; rfl
  | succ f ih =>
    intro x hx
    simp only [hostsLoop, contains_zero_mask x hx, if_true]
    rw [ih (inc x) (by rw [inc_length, hx])]
    rfl

/-- The `Hosts` collection loop, started at the network address, collects
exactly the `2^(32-p)` addresses of the block in ascending order. -/
lemma Hosts_loop_result (a b c d p fuel : Nat)
    (ha : a < 256) (hb : b < 256) (hc : c < 256) (hd : d < 256)
    (hp1 : 1 ≤ p) (hp2 : p ≤ 32) (hfuel : 2 ^ (32 - p) + 1 ≤ fuel) :
    hostsLoop (maskIP [a, b, c, d] (cidrMask p)) (cidrMask p) fuel
        (maskIP [a, b, c, d] (cidrMask p)) =
      some ((List.range (2 ^ (32 - p))).map
        (fun t => toBytes (toVal [a, b, c, d] -
          toVal [a, b, c, d] % 2 ^ (32 - p) + t))) := by
  have hvalid : ValidBytes [a, b, c, d] := by
    intro x hx
    simp only [List.mem_cons, List.not_mem_nil, or_false] at hx
    rcases hx with h | h | h | h <;> omega
  have hV : toVal [a, b, c, d] < 2 ^ 32 := by
    have := toVal_lt [a, b, c, d] hvalid
    have h4 : (256 : Nat) ^ [a, b, c, d].length = 2 ^ 32 := by norm_num
    omega
  have hWpos : 0 < 2 ^ (32 - p) := Nat.pos_pow_of_pos _ (by norm_num)
  have hWmul : 2 ^ (32 - p) * 2 ^ p = 2 ^ 32 := by
    rw [← pow_add]
    congr 1
    omega
  have hqlt : toVal [a, b, c, d] / 2 ^ (32 - p) < 2 ^ p :=
    (Nat.div_lt_iff_lt_mul hWpos).mpr (by rw [Nat.mul_comm, hWmul]; exact hV)
  have hbound : toVal [a, b, c, d] - toVal [a, b, c, d] % 2 ^ (32 - p) +
      2 ^ (32 - p) ≤ 2 ^ 32 := by
    rw [sub_mod_eq_mul_div]
    calc 2 ^ (32 - p) * (toVal [a, b, c, d] / 2 ^ (32 - p)) + 2 ^ (32 - p)
        = 2 ^ (32 - p) * (toVal [a, b, c, d] / 2 ^ (32 - p) + 1) := by ring
      _ ≤ 2 ^ (32 - p) * 2 ^ p := Nat.mul_le_mul_left _ (by omega)
      _ = 2 ^ 32 := hWmul
  have hnetlt : toVal [a, b, c, d] - toVal [a, b, c, d] % 2 ^ (32 - p) < 2 ^ 32 := by
    omega
  have hnet_list : maskIP [a, b, c, d] (cidrMask p) =
      toBytes (toVal [a, b, c, d] - toVal [a, b, c, d] % 2 ^ (32 - p)) := by
    have g := maskIP_cidr_valid a b c d p ha hb hc hd
    apply bytes_ext _ _ g.2 (toBytes_length _) g.1 (toBytes_valid _)
    rw [maskIP_toVal a b c d p ha hb hc hd hp2, toVal_toBytes _ hnetlt]
  have hchar : ∀ u, u < 2 ^ 32 →
      (contains (toBytes (toVal [a, b, c, d] -
          toVal [a, b, c, d] % 2 ^ (32 - p))) (cidrMask p) (toBytes u) = true ↔
        (toVal [a, b, c, d] - toVal [a, b, c, d] % 2 ^ (32 - p) ≤ u ∧
         u < toVal [a, b, c, d] - toVal [a, b, c, d] % 2 ^ (32 - p) + 2 ^ (32 - p))) := by
    intro u hu
    have h := contains_char a b c d p u ha hb hc hd hp2 hu
    rwa [hnet_list] at h
  have hrun := hostsLoop_run
    (toBytes (toVal [a, b, c, d] - toVal [a, b, c, d] % 2 ^ (32 - p)))
    p _ hp1 hp2 hchar hbound (2 ^ (32 - p)) fuel (le_refl _) hfuel
  simp only [Nat.sub_self, Nat.add_zero] at hrun
  rw [hnet_list]
  exact hrun

/-- C1 counterexample: for the block `10.0.0.0/0` — an IPv4 block in prefix
notation with prefix length `0 ≤ 30` — the Go collection loop of `Hosts`
never exits (every address is contained in the block and `inc` wraps
around), so `Hosts` never returns any host sequence, contradicting the
claim that it returns a sequence of length `2^32 - 2`. -/
theorem hosts_prefix0_diverges : HostsDiverges [10, 0, 0, 0] 0 := by
  intro fuel
  have hmask : cidrMask 0 = [0, 0, 0, 0] := by decide
  have hnet : maskIP [10, 0, 0, 0] [0, 0, 0, 0] = [0, 0, 0, 0] := by decide
  simp only [Hosts, hmask, hnet]
  rw [hostsLoop_zero_mask fuel [0, 0, 0, 0] (by decide)]
  rfl

/-- C1 (amended): for every IPv4 address block with prefix length between
1 and 30, `Hosts` returns the block's addresses in ascending address order
(each obtained from the previous by incrementing the lowest-order byte with
carry), excluding exactly the first (network) and last (broadcast) address,
so the returned sequence has length `2^(32-prefix) - 2`.  (The original
claim also covered prefix length 0, where the enumeration loop diverges —
see the counterexample.) -/
theorem hosts_enumerates_block (a b c d p fuel : Nat)
    (ha : a < 256) (hb : b < 256) (hc : c < 256) (hd : d < 256)
    (hp1 : 1 ≤ p) (hp2 : p ≤ 30) (hfuel : 2 ^ (32 - p) + 1 ≤ fuel) :
    Hosts [a, b, c, d] p fuel =
      .ok ((List.range (2 ^ (32 - p) - 2)).map
        (fun j => toBytes (toVal [a, b, c, d] -
          toVal [a, b, c, d] % 2 ^ (32 - p) + (j + 1)))) ∧
    ((List.range (2 ^ (32 - p) - 2)).map
        (fun j => toBytes (toVal [a, b, c, d] -
          toVal [a, b, c, d] % 2 ^ (32 - p) + (j + 1)))).length =
      2 ^ (32 - p) - 2 := by
  constructor
  · have hloop := Hosts_loop_result a b c d p fuel ha hb hc hd hp1 (by omega) hfuel
    have h2W : 2 ≤ 2 ^ (32 - p) := by
      calc (2 : Nat) = 2 ^ 1 := by norm_num
        _ ≤ 2 ^ (32 - p) := Nat.pow_le_pow_right (by norm_num) (by omega)
    have hslice := goSlice_range_map (2 ^ (32 - p))
      (fun t => toBytes (toVal [a, b, c, d] -
        toVal [a, b, c, d] % 2 ^ (32 - p) + t)) h2W
    simp only [Hosts]
    rw [hloop]
    simp only [hostsFinish]
    rw [hslice]
    rfl
  · simp

/-- C1 witness: the block `192.168.1.0/30` yields exactly the two usable
hosts `192.168.1.1` and `192.168.1.2`. -/
theorem hosts_enumerates_block_witness :
    Hosts [192, 168, 1, 0] 30 5 =
      .ok [[192, 168, 1, 1], [192, 168, 1, 2]] := by
  have h := (hosts_enumerates_block 192 168 1 0 30 5 (by norm_num) (by norm_num)
    (by norm_num) (by norm_num) (by norm_num) (by norm_num) (by norm_num)).1
  rw [h]
  decide

/-- C2 counterexample: for the block `192.168.1.5/32` the Go expression
`ips[1:len(ips)-1]` is evaluated with `len(ips) = 1`, i.e. as `ips[1:0]`,
which violates Go's slice bounds and panics — `Hosts` does not return an
empty sequence. -/
theorem hosts_slash32_panics : Hosts [192, 168, 1, 5] 32 2 = .panicked := by
  decide

/-- C2 (amended): for a prefix length of 31 (fewer than 2 usable addresses),
`Hosts` returns an empty sequence without error; but for prefix length 32
the final slice expression `ips[1:0]` violates Go's slice bounds and the
call panics instead of returning an empty sequence. -/
theorem hosts_short_prefixes (a b c d f31 f32 : Nat)
    (ha : a < 256) (hb : b < 256) (hc : c < 256) (hd : d < 256)
    (h31 : 3 ≤ f31) (h32 : 2 ≤ f32) :
    Hosts [a, b, c, d] 31 f31 = .ok [] ∧
    Hosts [a, b, c, d] 32 f32 = .panicked := by
  constructor
  · have hloop := Hosts_loop_result a b c d 31 f31 ha hb hc hd (by norm_num)
      (by norm_num) (by norm_num; omega)
    norm_num at hloop
    simp only [Hosts]
    rw [hloop]
    simp [hostsFinish, goSlice, sliceResult]
  · have hloop := Hosts_loop_result a b c d 32 f32 ha hb hc hd (by norm_num)
      (by norm_num) (by norm_num; omega)
    norm_num at hloop
    simp only [Hosts]
    rw [hloop]
    simp [hostsFinish, goSlice, sliceResult]

/-- C2 witness: concrete instance of the amended claim at `10.20.30.40`. -/
theorem hosts_short_prefixes_witness :
    Hosts [10, 20, 30, 40] 31 3 = .ok [] ∧
    Hosts [10, 20, 30, 40] 32 2 = .panicked := by
  have h := hosts_short_prefixes 10 20 30 40 3 2 (by norm_num) (by norm_num)
    (by norm_num) (by norm_num) (by norm_num) (by norm_num)
  exact h


/-! ### Theorems about `ScanNetwork` -/

lemma range_filterMap_get (l : List String) :
    (List.range l.length).filterMap (fun i => l.get? i) = l := by
  induction l with
  | nil => rfl
  | cons a l ih =>
    rw [List.length_cons, List.range_succ_eq_map, List.filterMap_cons,
      List.filterMap_map]
    have hcomp : ((fun i => (a :: l).get? i) ∘ Nat.succ) = fun i => l.get? i :=
      funext fun i => rfl
    rw [hcomp, ih]
    rfl

/-- C3: for every address block whose enumeration succeeds and every
reachability oracle, `ScanNetwork` returns — for every interleaving
`sched` of the probe goroutines — a list that is a permutation of the
`Hosts` output filtered by the oracle: no host is lost or duplicated
(element counts agree exactly), and membership is deterministic (it equals
membership in the filtered host list, for every schedule), while the
ordering depends on the schedule and is thus unspecified. -/
theorem scanNetwork_exact_membership (ipb : List Nat) (p fuel : Nat)
    (port : String) (ips : List (List Nat))
    (isCouchDBRunning : String → String → Bool) (sched : List Nat)
    (hok : Hosts ipb p fuel = .ok ips)
    (hperm : sched.Perm (List.range ips.length)) :
    ∃ r, ScanNetwork ipb p fuel port isCouchDBRunning sched = some r ∧
      r.Perm ((ips.map ipStr).filter (fun ip => isCouchDBRunning ip port)) ∧
      (∀ x, x ∈ r ↔
        x ∈ (ips.map ipStr).filter (fun ip => isCouchDBRunning ip port)) ∧
      (∀ x, r.count x =
        ((ips.map ipStr).filter (fun ip => isCouchDBRunning ip port)).count x) := by
  have hperm2 : sched.Perm (List.range (ips.map ipStr).length) := by
    rwa [List.length_map]
  have hP : (sched.filterMap (fun i => (ips.map ipStr).get? i)).Perm
      ((List.range (ips.map ipStr).length).filterMap
        (fun i => (ips.map ipStr).get? i)) :=
    hperm2.filterMap _
  rw [range_filterMap_get] at hP
  have hPf := hP.filter (fun ip => isCouchDBRunning ip port)
  refine ⟨(sched.filterMap (fun i => (ips.map ipStr).get? i)).filter
    (fun ip => isCouchDBRunning ip port), ?_, hPf, fun x => hPf.mem_iff,
    fun x => hPf.count_eq x⟩
  simp only [ScanNetwork, hok]

/-- C3 witness: scanning `192.168.1.0/30` with an oracle that reports only
`192.168.1.1` as reachable, under the schedule where the second goroutine
appends first. -/
theorem scanNetwork_exact_membership_witness :
    ∃ r, ScanNetwork [192, 168, 1, 0] 30 5 "5984"
        (fun ip _ => ip == "192.168.1.1") [1, 0] = some r ∧
      r.Perm (([[192, 168, 1, 1], [192, 168, 1, 2]].map ipStr).filter
        (fun ip => (fun ip _ => ip == "192.168.1.1") ip "5984")) ∧
      (∀ x, x ∈ r ↔
        x ∈ ([[192, 168, 1, 1], [192, 168, 1, 2]].map ipStr).filter
          (fun ip => (fun ip _ => ip == "192.168.1.1") ip "5984")) ∧
      (∀ x, r.count x =
        (([[192, 168, 1, 1], [192, 168, 1, 2]].map ipStr).filter
          (fun ip => (fun ip _ => ip == "192.168.1.1") ip "5984")).count x) :=
  scanNetwork_exact_membership [192, 168, 1, 0] 30 5 "5984"
    [[192, 168, 1, 1], [192, 168, 1, 2]]
    (fun ip _ => ip == "192.168.1.1") [1, 0]
    (by decide) (by decide)

/-! ### Theorems about the revision-deletion operations -/

/-- C4: deleting a revision list tolerates `not_found` failures — every
revision whose deletion succeeds or fails with an error mentioning
`not_found` is passed over and the whole call succeeds; the first failure
not mentioning `not_found` aborts the remaining deletions (the result does
not depend on the revisions after it) and is propagated wrapped with the
revision; and `DeleteDocument` treats a 404 (not-found) response as
success. -/
theorem deleteAllRevisions_tolerates_not_found (env : Env) (docID : String) :
    (∀ revs : List String,
      (∀ rev ∈ revs,
        (∃ s, DeleteDocumentRevision env docID rev = .ok s) ∨
        (∃ e, DeleteDocumentRevision env docID rev = .error e ∧
          strContains e "not_found" = true)) →
      DeleteAllRevisions env docID revs = .ok ()) ∧
    (∀ (pre : List String) (bad : String) (post : List String) (ebad : String),
      (∀ rev ∈ pre,
        (∃ s, DeleteDocumentRevision env docID rev = .ok s) ∨
        (∃ e, DeleteDocumentRevision env docID rev = .error e ∧
          strContains e "not_found" = true)) →
      DeleteDocumentRevision env docID bad = .error ebad →
      strContains ebad "not_found" = false →
      DeleteAllRevisions env docID (pre ++ bad :: post) =
        .error ("failed to delete revision " ++ bad ++ ": " ++ ebad)) ∧
    (∀ r, env.delDoc docID = .ok r → r.status = 404 →
      DeleteDocument env docID = .ok ()) := by
  refine ⟨?_, ?_, ?_⟩
  · intro revs h
    induction revs with
    | nil => rfl
    | cons rev rest ih =>
      rcases h rev (by simp) with ⟨s, hs⟩ | ⟨e, he, hnf⟩
      · simp only [DeleteAllRevisions, hs]
        exact ih (fun r hr => h r (by simp [hr]))
      · simp only [DeleteAllRevisions, he, hnf, if_true]
        exact ih (fun r hr => h r (by simp [hr]))
  · intro pre bad post ebad hpre hbad hnf
    induction pre with
    | nil =>
      simp only [List.nil_append, DeleteAllRevisions, hbad, hnf]
      simp only [Bool.false_eq_true, if_false]
    | cons rev pre' ih =>
      rcases hpre rev (by simp) with ⟨s, hs⟩ | ⟨e, he, hnfe⟩
      · simp only [List.cons_append, DeleteAllRevisions, hs]
        exact ih (fun r hr => hpre r (by simp [hr]))
      · simp only [List.cons_append, DeleteAllRevisions, he, hnfe, if_true]
        exact ih (fun r hr => hpre r (by simp [hr]))
  · intro r hr hst
    simp [DeleteDocument, hr, hst]


/-- C4 witness: with `env4`, the mixed list succeeds, the list containing
the 500-failing revision aborts with the wrapped error, and the document
delete succeeds on its 404. -/
theorem deleteAllRevisions_tolerates_not_found_witness :
    DeleteAllRevisions env4 "doc1" ["1-a", "2-b"] = .ok () ∧
    DeleteAllRevisions env4 "doc1" ["2-b", "3-c", "1-a"] =
      .error ("failed to delete revision 3-c: " ++
        "failed to delete document revision: boom") ∧
    DeleteDocument env4 "doc1" = .ok () := by
  obtain ⟨h1, h2, h3⟩ := deleteAllRevisions_tolerates_not_found env4 "doc1"
  refine ⟨h1 ["1-a", "2-b"] ?_, ?_, h3 ⟨404, "not_found"⟩ rfl rfl⟩
  · intro rev hrev
    rcases (by simpa using hrev : rev = "1-a" ∨ rev = "2-b") with rfl | rfl
    · exact Or.inl ⟨"Revision deleted successfully", rfl⟩
    · exact Or.inr ⟨"failed to delete document revision: not_found: missing",
        rfl, by decide⟩
  · have := h2 ["2-b"] "3-c" ["1-a"] "failed to delete document revision: boom"
      ?_ rfl (by decide)
    · exact this
    · intro rev hrev
      rcases (by simpa using hrev : rev = "2-b") with rfl
      exact Or.inr ⟨"failed to delete document revision: not_found: missing",
        rfl, by decide⟩

/-! ### Theorems about `HandleQueryResponse` -/

lemma delConflictsAux_all_ok (env : Env) (docID : String) :
    ∀ rs : List String,
      (∀ r ∈ rs, ∃ s, DeleteDocumentRevision env docID r = .ok s) →
      delConflictsAux env docID rs = (.ok (), rs.map (fun r => (docID, r))) := by
  intro rs
  induction rs with
  | nil => intro _; rfl
  | cons r rest ih =>
    intro h
    obtain ⟨s, hs⟩ := h r (by simp)
    simp only [delConflictsAux, hs, List.map_cons]
    rw [ih (fun x hx => h x (by simp [hx]))]

lemma delConflictsAux_aborts (env : Env) (docID badRev e : String)
    (hbad : DeleteDocumentRevision env docID badRev = .error e) :
    ∀ (preC postC : List String),
      (∀ r ∈ preC, ∃ s, DeleteDocumentRevision env docID r = .ok s) →
      delConflictsAux env docID (preC ++ badRev :: postC) =
        (.error ("failed to delete conflict for document " ++ docID ++ ": " ++ e),
         preC.map (fun r => (docID, r)) ++ [(docID, badRev)]) := by
  intro preC
  induction preC with
  | nil =>
    intro postC _
    simp only [List.nil_append, delConflictsAux, hbad, List.map_nil]
  | cons r pre' ih =>
    intro postC h
    obtain ⟨s, hs⟩ := h r (by simp)
    simp only [List.cons_append, delConflictsAux, hs, List.map_cons,
      show pre'.append (badRev :: postC) = pre' ++ badRev :: postC from rfl,
      ih postC (fun x hx => h x (by simp [hx]))]

lemma handleRows_all_ok (env : Env) :
    ∀ rows : List QRow,
      (∀ row ∈ rows, ∀ r ∈ row.value.deletedConflicts,
        ∃ s, DeleteDocumentRevision env row.value.id r = .ok s) →
      handleRows env rows =
        (.ok (), rows.flatMap (fun row =>
          row.value.deletedConflicts.map (fun r => (row.value.id, r)))) := by
  intro rows
  induction rows with
  | nil => intro _; rfl
  | cons row rest ih =>
    intro h
    by_cases hc : row.value.deletedConflicts.length > 0
    · simp only [handleRows, if_pos hc]
      rw [delConflictsAux_all_ok env row.value.id row.value.deletedConflicts
        (h row (by simp)), ih (fun x hx => h x (by simp [hx]))]
      simp
    · have hempty : row.value.deletedConflicts = [] :=
        List.length_eq_zero.mp (by omega)
      simp only [handleRows, if_neg hc, List.flatMap_cons, hempty,
        List.map_nil, List.nil_append]
      exact ih (fun x hx => h x (by simp [hx]))

/-- C5: for every decoded query response whose conflict deletions all
succeed, `HandleQueryResponse` issues exactly one revision-delete call per
deleted-conflict revision of each row, against that row's document id, and
succeeds; and whenever one deletion fails, the call stops at the failing
revision — no call after it is issued, whatever rows or revisions remain —
and the returned error reports the offending document id. -/
theorem handleQueryResponse_deletes_each_conflict (env : Env) :
    (∀ resp : QResponse,
      (∀ row ∈ resp.rows, ∀ r ∈ row.value.deletedConflicts,
        ∃ s, DeleteDocumentRevision env row.value.id r = .ok s) →
      HandleQueryResponse env resp =
        (.ok (), resp.rows.flatMap (fun row =>
          row.value.deletedConflicts.map (fun r => (row.value.id, r))))) ∧
    (∀ (tr off : Int) (preR : List QRow) (badRow : QRow) (postR : List QRow)
        (preC : List String) (badRev : String) (postC : List String) (e : String),
      (∀ row ∈ preR, ∀ r ∈ row.value.deletedConflicts,
        ∃ s, DeleteDocumentRevision env row.value.id r = .ok s) →
      badRow.value.deletedConflicts = preC ++ badRev :: postC →
      (∀ r ∈ preC, ∃ s, DeleteDocumentRevision env badRow.value.id r = .ok s) →
      DeleteDocumentRevision env badRow.value.id badRev = .error e →
      HandleQueryResponse env ⟨tr, off, preR ++ badRow :: postR⟩ =
        (.error ("failed to delete conflict for document " ++
            badRow.value.id ++ ": " ++ e),
         preR.flatMap (fun row =>
           row.value.deletedConflicts.map (fun r => (row.value.id, r))) ++
         (preC.map (fun r => (badRow.value.id, r)) ++ [(badRow.value.id, badRev)]))) := by
  constructor
  · intro resp h
    exact handleRows_all_ok env resp.rows h
  · intro tr off preR badRow postR preC badRev postC e hpreR hconf hpreC hbad
    show handleRows env (preR ++ badRow :: postR) = _
    induction preR with
    | nil =>
      simp only [List.nil_append, handleRows, hconf,
        delConflictsAux_aborts env badRow.value.id badRev e hbad preC postC hpreC,
        List.flatMap_nil]
      have hlen : (preC ++ badRev :: postC).length > 0 := by
        simp only [List.length_append, List.length_cons]
        omega
      rw [if_pos hlen]
    | cons row preR' ih =>
      by_cases hc : row.value.deletedConflicts.length > 0
      · simp only [List.cons_append, handleRows, if_pos hc,
          delConflictsAux_all_ok env row.value.id row.value.deletedConflicts
            (hpreR row (by simp)),
          show preR'.append (badRow :: postR) = preR' ++ badRow :: postR from rfl,
          ih (fun x hx => hpreR x (by simp [hx])), List.flatMap_cons]
        simp [List.append_assoc]
      · have hempty : row.value.deletedConflicts = [] :=
          List.length_eq_zero.mp (by omega)
        simp only [List.cons_append, handleRows, if_neg hc, List.flatMap_cons,
          hempty, List.map_nil, List.nil_append]
        exact ih (fun x hx => hpreR x (by simp [hx]))


/-- C5 witness: one query row whose value carries deleted-conflict
revisions `2-aaa` and `3-bbb` leads to exactly two revision-delete calls
for that document id, and the call succeeds. -/
theorem handleQueryResponse_deletes_each_conflict_witness :
    HandleQueryResponse env5
        ⟨1, 0, [⟨"doc1", "doc1", ⟨"doc1", "5-eee", ["2-aaa", "3-bbb"]⟩⟩]⟩ =
      (.ok (), [("doc1", "2-aaa"), ("doc1", "3-bbb")]) := by
  have h := (handleQueryResponse_deletes_each_conflict env5).1
    ⟨1, 0, [⟨"doc1", "doc1", ⟨"doc1", "5-eee", ["2-aaa", "3-bbb"]⟩⟩]⟩
    (fun row _ r _ => ⟨"Revision deleted successfully", rfl⟩)
  rw [h]
  rfl

/-! ### Theorems about `ResetDocument` -/

/-- C6: `ResetDocument` runs its five steps strictly in order — fetch the
document, fetch its revision history, delete each revision, delete the
document, recreate it — halting at the first failing step without
executing any later one (the recorded step trace stops at the failing
step), and the returned error wraps the failing step's message around the
underlying cause. -/
theorem resetDocument_step_order (env : Env) (docID : String) :
    (∀ e, GetDocument env docID = .error e →
      ResetDocument env docID =
        (.err ("failed to fetch document: " ++ e), ["fetch document"])) ∧
    (∀ doc e, GetDocument env docID = .ok doc →
      GetAllRevisions env docID = .error e →
      ResetDocument env docID =
        (.err ("failed to get revisions: " ++ e),
         ["fetch document", "fetch revision history"])) ∧
    (∀ doc revs e, GetDocument env docID = .ok doc →
      GetAllRevisions env docID = .ok revs →
      DeleteAllRevisions env docID revs = .error e →
      ResetDocument env docID =
        (.err ("failed to delete all revisions: " ++ e),
         ["fetch document", "fetch revision history", "delete each revision"])) ∧
    (∀ doc revs e, GetDocument env docID = .ok doc →
      GetAllRevisions env docID = .ok revs →
      DeleteAllRevisions env docID revs = .ok () →
      DeleteDocument env docID = .error e →
      ResetDocument env docID =
        (.err ("failed to delete document: " ++ e),
         ["fetch document", "fetch revision history", "delete each revision",
          "delete document"])) ∧
    (∀ doc revs e, GetDocument env docID = .ok doc →
      GetAllRevisions env docID = .ok revs →
      DeleteAllRevisions env docID revs = .ok () →
      DeleteDocument env docID = .ok () →
      (CreateDocument env doc).outcome = .err e →
      ResetDocument env docID =
        (.err ("failed to recreate document: " ++ e),
         ["fetch document", "fetch revision history", "delete each revision",
          "delete document", "recreate"])) ∧
    (∀ doc revs, GetDocument env docID = .ok doc →
      GetAllRevisions env docID = .ok revs →
      DeleteAllRevisions env docID revs = .ok () →
      DeleteDocument env docID = .ok () →
      (CreateDocument env doc).outcome = .ok →
      ResetDocument env docID =
        (.ok,
         ["fetch document", "fetch revision history", "delete each revision",
          "delete document", "recreate"])) := by
  refine ⟨?_, ?_, ?_, ?_, ?_, ?_⟩
  · intro e h1
    simp only [ResetDocument, h1]
  · intro doc e h1 h2
    simp only [ResetDocument, h1, h2]
  · intro doc revs e h1 h2 h3
    simp only [ResetDocument, h1, h2, h3]
  · intro doc revs e h1 h2 h3 h4
    simp only [ResetDocument, h1, h2, h3, h4]
  · intro doc revs e h1 h2 h3 h4 h5
    simp only [ResetDocument, h1, h2, h3, h4, h5]
  · intro doc revs h1 h2 h3 h4 h5
    simp only [ResetDocument, h1, h2, h3, h4, h5]


/-- C6 witness: with `envR` every step succeeds in order and the trace
records all five steps. -/
theorem resetDocument_step_order_witness :
    ResetDocument envR "doc1" =
      (.ok,
       ["fetch document", "fetch revision history", "delete each revision",
        "delete document", "recreate"]) :=
  (resetDocument_step_order envR "doc1").2.2.2.2.2
    [("_id", Json.str "doc1")] ["1-a"] rfl rfl rfl rfl rfl

/-! ### Theorems about the `high_rev_gen` view -/

/-- C7 counterexample: for a document with revision id `100001-abc` the
installed view emits the whole document as the value (`emit(doc._id, doc)`),
not the integer generation prefix `100001` claimed by the spec. -/
theorem viewMap_emits_document_not_generation :
    (viewMap ⟨"doc1", "100001-abc"⟩).map Prod.snd =
      [EmitVal.docVal ⟨"doc1", "100001-abc"⟩] ∧
    EmitVal.docVal ⟨"doc1", "100001-abc"⟩ ≠ EmitVal.numVal 100001 := by
  constructor
  · decide
  · decide

/-- C7 (amended): the view keys a document under `high_rev_gen` exactly
when the integer generation prefix of its current revision id strictly
exceeds 100000 (documents with an unparsable generation are excluded), and
for each such document it emits the document id as key and the whole
document as value — not the generation prefix. -/
theorem viewMap_threshold (d : ViewDoc) :
    (∀ g, parseIntJS (genSegment d.rev) = some g →
      ((viewMap d = [(d.id, .docVal d)] ↔ 100000 < g) ∧
       (viewMap d = [] ↔ ¬ 100000 < g))) ∧
    (parseIntJS (genSegment d.rev) = none → viewMap d = []) := by
  constructor
  · intro g hg
    by_cases hgt : 100000 < g
    · constructor <;> simp [viewMap, hg, hgt]
    · constructor <;> simp [viewMap, hg, hgt]
  · intro hg
    simp [viewMap, hg]

/-- C7 witness: the boundary instances — revision `100001-abc` is indexed,
revision `100000-xyz` is not. -/
theorem viewMap_threshold_witness :
    viewMap ⟨"a", "100001-abc"⟩ = [("a", .docVal ⟨"a", "100001-abc"⟩)] ∧
    viewMap ⟨"b", "100000-xyz"⟩ = [] := by
  constructor
  · exact ((viewMap_threshold ⟨"a", "100001-abc"⟩).1 100001 (by decide)).1.mpr
      (by norm_num)
  · exact ((viewMap_threshold ⟨"b", "100000-xyz"⟩).1 100000 (by decide)).2.mpr
      (by norm_num)

/-! ### Theorems about `CreateDocument` and `CreateDesignDocument` -/

/-- C8 counterexample: calling `CreateDocument` on a body without an
`_id` string is a Go runtime panic (`doc["_id"].(string)` on a missing
key), not a reported failure — and no PUT request is issued. -/
theorem createDocument_missing_id_crashes :
    (CreateDocument envR []).outcome = COutcome.crash "interface conversion" ∧
    (CreateDocument envR []).sent = [] := by
  constructor <;> rfl

/-- C8 (amended): when the body lacks an `_id` string the call panics
(Go interface-conversion panic) — no document is created (no PUT issued)
and the caller's map is untouched — rather than reporting a failure; when
the `_id` string is present the body is re-inserted at that id with its
`_rev` field stripped before sending. -/
theorem createDocument_requires_id (env : Env) (doc : List (String × Json)) :
    ((∀ s, doc.lookup "_id" ≠ some (Json.str s)) →
      CreateDocument env doc = ⟨.crash "interface conversion", doc, []⟩) ∧
    (∀ s, doc.lookup "_id" = some (Json.str s) →
      (CreateDocument env doc).sent = [(s, env.encode (eraseKey doc "_rev"))] ∧
      (CreateDocument env doc).doc = eraseKey doc "_rev") := by
  constructor
  · intro h
    rcases hl : doc.lookup "_id" with _ | j
    · simp only [CreateDocument, hl]
    · cases j with
      | str s => exact absurd hl (h s)
      | null => simp only [CreateDocument, hl]
      | bool b => simp only [CreateDocument, hl]
      | num n => simp only [CreateDocument, hl]
      | arr xs => simp only [CreateDocument, hl]
      | obj fs => simp only [CreateDocument, hl]
  · intro s hs
    simp only [CreateDocument, hs]
    rcases hput : env.putDoc s (env.encode (eraseKey doc "_rev")) with e | r
    · simp [hput]
    · simp only [hput]
      by_cases h201 : r.status = 201 <;> simp [h201]


/-- C8 witness: a body without `_id` panics with nothing sent; `doc0` is
PUT at its id with `_rev` stripped. -/
theorem createDocument_requires_id_witness :
    CreateDocument envR [("x", Json.num 1)] =
      ⟨.crash "interface conversion", [("x", Json.num 1)], []⟩ ∧
    (CreateDocument envR doc0).sent =
      [("doc1", envR.encode (eraseKey doc0 "_rev"))] ∧
    (CreateDocument envR doc0).doc = eraseKey doc0 "_rev" := by
  refine ⟨(createDocument_requires_id envR [("x", Json.num 1)]).1 ?_,
    (createDocument_requires_id envR doc0).2 "doc1" rfl⟩
  intro s hs
  rw [show ([("x", Json.num 1)] : List (String × Json)).lookup "_id" = none
    from rfl] at hs
  exact Option.noConfusion hs

/-- C9: `CreateDesignDocument` never inspects the response status: for
every status the server answers with — including rejections such as 500 —
it returns the response body with no error, so a rejected index
installation is reported as success and cannot halt the workflow at the
install-index step. -/
theorem createDesignDocument_ignores_status (env : Env) (name : String)
    (d : List (String × Json)) (status : Nat) (bodyText : String)
    (h : env.putDesign name (env.encode d) = .ok ⟨status, bodyText⟩) :
    CreateDesignDocument env name d = .ok bodyText := by
  simp [CreateDesignDocument, h]

/-- C9 witness: a 500-rejected design-document PUT is still reported as
success, with the server's body returned. -/
theorem createDesignDocument_ignores_status_witness :
    CreateDesignDocument envR "rev_filter" [] = .ok "rejected" :=
  createDesignDocument_ignores_status envR "rev_filter" [] 500 "rejected" rfl

lemma lookup_eraseKey_self (k : String) :
    ∀ doc : List (String × Json), (eraseKey doc k).lookup k = none := by
  intro doc
  induction doc with
  | nil => rfl
  | cons kv rest ih =>
    obtain ⟨q, v⟩ := kv
    by_cases h : q = k
    · subst h
      simp only [eraseKey, List.filter_cons, bne_self_eq_false, Bool.false_eq_true,
        if_false] at ih ⊢
      exact ih
    · have hne : (q != k) = true := by simp [h]
      have hkq : (k == q) = false := beq_eq_false_iff_ne.mpr (Ne.symm h)
      simp only [eraseKey, List.filter_cons, hne, if_true] at ih ⊢
      simp only [List.lookup, hkq]
      exact ih

lemma lookup_eraseKey_ne (k r : String) (hkr : k ≠ r) :
    ∀ doc : List (String × Json), (eraseKey doc r).lookup k = doc.lookup k := by
  intro doc
  induction doc with
  | nil => rfl
  | cons kv rest ih =>
    obtain ⟨q, v⟩ := kv
    by_cases h : q = r
    · subst h
      have hkq : (k == q) = false := beq_eq_false_iff_ne.mpr hkr
      simp only [eraseKey, List.filter_cons, bne_self_eq_false, Bool.false_eq_true,
        if_false] at ih ⊢
      simp only [List.lookup, hkq]
      exact ih
    · have hne : (q != r) = true := by simp [h]
      simp only [eraseKey, List.filter_cons, hne, if_true] at ih ⊢
      rcases hkq : (k == q) with _ | _
      · simp only [List.lookup, hkq]
        exact ih
      · simp only [List.lookup, hkq]

/-- C10: `CreateDocument` (when the `_id` string is present, so the call
proceeds past the type assertion) mutates the caller's map in place: after
the call the map is exactly the original with the `_rev` key removed —
looking up `_rev` yields nothing and every other key is unchanged. -/
theorem createDocument_strips_rev_in_place (env : Env)
    (doc : List (String × Json)) (s : String)
    (h : doc.lookup "_id" = some (Json.str s)) :
    (CreateDocument env doc).doc = eraseKey doc "_rev" ∧
    (CreateDocument env doc).doc.lookup "_rev" = none ∧
    (∀ k, k ≠ "_rev" → (CreateDocument env doc).doc.lookup k = doc.lookup k) := by
  have hdoc : (CreateDocument env doc).doc = eraseKey doc "_rev" := by
    simp only [CreateDocument, h]
    rcases hput : env.putDoc s (env.encode (eraseKey doc "_rev")) with e | r
    · simp [hput]
    · simp only [hput]
      by_cases h201 : r.status = 201 <;> simp [h201]
  refine ⟨hdoc, ?_, ?_⟩
  · rw [hdoc]
    exact lookup_eraseKey_self "_rev" doc
  · intro k hk
    rw [hdoc]
    exact lookup_eraseKey_ne k "_rev" hk doc

/-- C10 witness: on `doc0` the caller's map loses `_rev`, keeps `v`, and
equals the `_rev`-stripped original. -/
theorem createDocument_strips_rev_in_place_witness :
    (CreateDocument envR doc0).doc = eraseKey doc0 "_rev" ∧
    (CreateDocument envR doc0).doc.lookup "_rev" = none ∧
    (CreateDocument envR doc0).doc.lookup "v" = doc0.lookup "v" := by
  obtain ⟨h1, h2, h3⟩ :=
    createDocument_strips_rev_in_place envR doc0 "doc1" rfl
  exact ⟨h1, h2, h3 "v" (by decide)⟩

end CouchPurge
